import Mathlib

/-!
Shallow embedding of the block accumulator component of the node
(src/node/src/components/block_accumulator.rs), together with proofs
about its registration logic, eviction logic and sync-decision
algorithm.

Modelling conventions:
* block hashes, node ids, era ids, public keys, timestamps and
  durations are all natural numbers;
* BTreeMap is an association list with first-match lookup, HashSet is
  a list with boolean membership;
* u64 saturating_sub is truncated Nat subtraction;
* Timestamp::now() is passed in explicitly as a parameter where the
  source calls it; elapsed() is truncated subtraction from it;
* asynchronous Effects are recorded as a list of effect descriptors.
-/

/-- Association-list lookup, first matching key wins (models BTreeMap get). -/
def lookupA {β : Type} : List (ℕ × β) → ℕ → Option β
  | [], _ => none
  | (k, v) :: rest, h => if k = h then some v else lookupA rest h

/-- Association-list insert: replaces the first binding of the key, or
appends a fresh binding (models BTreeMap insert / OccupiedEntry insert). -/
def insertA {β : Type} (k : ℕ) (v : β) : List (ℕ × β) → List (ℕ × β)
  | [] => [(k, v)]
  | (k1, v1) :: rest => if k1 = k then (k, v) :: rest else (k1, v1) :: insertA k v rest

/-- Association-list removal of a key (models BTreeMap remove; BTreeMap keys
are unique, removing every binding of the key is the same operation). -/
def removeA {β : Type} (k : ℕ) : List (ℕ × β) → List (ℕ × β)
  | [] => []
  | (k1, v1) :: rest => if k1 = k then removeA k rest else (k1, v1) :: removeA k rest

/-- Boolean set membership for the HashSet of already handled hashes. -/
def memA : List ℕ → ℕ → Bool
  | [], _ => false
  | x :: xs, k => if x = k then true else memA xs k

/-- A block: content hash, optional parent hash (none for genesis),
era id and height, mirroring the fields of types::Block used by the
accumulator (hash(), parent(), header().era_id(), header().height()). -/
structure Block where
  hash : ℕ
  parent : Option ℕ
  era_id : ℕ
  height : ℕ
deriving DecidableEq, Repr

/-- A block header; the accumulator only reads its height
(Event::ExecutedBlock carries a header and the handler calls height()). -/
structure BlockHeader where
  height : ℕ
deriving DecidableEq, Repr

/-- A finality signature: block hash, era id, signing validator public
key, and the signature value (types::FinalitySignature). -/
structure FinalitySignature where
  block_hash : ℕ
  era_id : ℕ
  public_key : ℕ
  signature : ℕ
deriving DecidableEq, Repr

/-- The id of a finality signature (types::FinalitySignatureId): the
block hash, era id and public key identify a signature. -/
def FinalitySignature.sigId (f : FinalitySignature) : ℕ × ℕ × ℕ :=
  (f.block_hash, f.era_id, f.public_key)

/-- Modelled from the spec: the block_acceptor module (mod block_acceptor)
is not among the sources; this structure follows the reconstructed
contract of spec section 4.2. An acceptor is keyed by a block hash and
holds the optional block body, the era once known, the collected
signatures, the optional era validator weight table, the vouching peers,
and whether the quorum threshold has been reached. -/
structure BlockAcceptor where
  block_hash : ℕ
  block : Option Block
  era_id : Option ℕ
  signatures : List FinalitySignature
  era_validator_weights : Option (List (ℕ × ℕ))
  peers : List ℕ
  sufficient_finality : Bool
deriving DecidableEq, Repr

/-- Modelled from the spec: BlockAcceptor::new(block_hash, peers) builds an
empty acceptor with no block, no signatures and no weights. -/
def BlockAcceptor.new (block_hash : ℕ) (peers : List ℕ) : BlockAcceptor :=
  { block_hash := block_hash
    block := none
    era_id := none
    signatures := []
    era_validator_weights := none
    peers := peers
    sufficient_finality := false }

/-- Modelled from the spec: BlockAcceptor::new_with_validator_weights
additionally attaches the known weight table. -/
def BlockAcceptor.new_with_validator_weights (block_hash : ℕ)
    (evw : List (ℕ × ℕ)) (peers : List ℕ) : BlockAcceptor :=
  { BlockAcceptor.new block_hash peers with era_validator_weights := some evw }

/-- The height accessor: none until the block body is known. -/
def BlockAcceptor.block_height (a : BlockAcceptor) : Option ℕ :=
  a.block.map Block.height

/-- Quorum accessor (spec section 4.2): whether accumulated signer weight
meets the quorum threshold. -/
def BlockAcceptor.has_sufficient_finality (a : BlockAcceptor) : Bool :=
  a.sufficient_finality

/-- Era and height accessor: some only once both era and height are known
(spec section 4.2). -/
def BlockAcceptor.block_era_and_height (a : BlockAcceptor) : Option (ℕ × ℕ) :=
  match a.era_id, a.block_height with
  | some e, some h => some (e, h)
  | _, _ => none

/-- Total weight of a validator weight table. -/
def total_weight (w : List (ℕ × ℕ)) : ℕ :=
  (w.map Prod.snd).sum

/-- Accumulated weight of the signers of the given signatures under the
given table (signers absent from the table contribute nothing). -/
def signed_weight (w : List (ℕ × ℕ)) (sigs : List FinalitySignature) : ℕ :=
  (sigs.map (fun sg => (lookupA w sg.public_key).getD 0)).sum

/-- Modelled from the spec: the quorum rule, accumulated signer weight
strictly more than one third of the total weight of the era
(spec sections 3 and 8). -/
def quorum_reached (w : List (ℕ × ℕ)) (sigs : List FinalitySignature) : Bool :=
  decide (total_weight w < 3 * signed_weight w sigs)

/-- Modelled from the spec: BlockAcceptor::refresh(weights) recomputes
sufficiency against a new weight table, purging signatures from signers
absent in the new table (spec section 4.2). -/
def BlockAcceptor.refresh (a : BlockAcceptor) (w : List (ℕ × ℕ)) : BlockAcceptor :=
  { a with
    era_validator_weights := some w
    signatures := a.signatures.filter (fun sg => (lookupA w sg.public_key).isSome)
    sufficient_finality :=
      quorum_reached w (a.signatures.filter (fun sg => (lookupA w sg.public_key).isSome)) }

/-- The error taxonomy returned by acceptor registrations
(block_accumulator::error::Error). -/
inductive AcceptorError where
  | invalidGossip (peer : ℕ)
  | eraMismatch
  | blockHashMismatch (peer : ℕ)
  | invalidState
deriving DecidableEq, Repr

/-- The storage verdict returned by the acceptor on signature
registration (block_acceptor::ShouldStore). -/
inductive ShouldStore where
  | sufficientlySignedBlock (block : Block) (signatures : List FinalitySignature)
  | singleSignature (signature : FinalitySignature)
  | nothing
deriving DecidableEq, Repr

/-- The four sync instructions (enum SyncInstruction). -/
inductive SyncInstruction where
  | leap
  | caughtUp
  | blockExec (next_block_hash : Option ℕ)
  | blockSync (block_hash : ℕ) (should_fetch_execution_state : Bool)
deriving DecidableEq, Repr

/-- The caller-supplied starting point descriptor (enum StartingWith). -/
inductive StartingWith where
  | executableBlock (hash : ℕ) (height : ℕ)
  | blockIdentifier (hash : ℕ) (height : ℕ)
  | syncedBlockIdentifier (hash : ℕ) (height : ℕ)
  | hash (h : ℕ)
  | nothing
deriving DecidableEq, Repr

/-- StartingWith::have_block. -/
def StartingWith.have_block : StartingWith → Bool
  | .blockIdentifier _ _ => true
  | .executableBlock _ _ => true
  | .syncedBlockIdentifier _ _ => true
  | .hash _ => false
  | .nothing => false

/-- Asynchronous effects scheduled by the accumulator, recorded as data:
peer disconnects, the two storage effects (each of which later feeds a
Stored event back carrying the listed signature ids), the responder reply
with the peers of a block, and the two acceptance announcements. -/
inductive Effect where
  | disconnect_peer (peer : ℕ)
  | store_block_then_signatures (block : Block) (ids : List (ℕ × ℕ × ℕ))
  | store_single_signature (signature : FinalitySignature)
  | respond_peers (r : Option (List ℕ))
  | announce_block_accepted (h : ℕ)
  | announce_signature_accepted (id : ℕ × ℕ × ℕ)
deriving DecidableEq, Repr

/-- The accumulator state (struct BlockAccumulator): configuration
(attempt_execution_threshold, dead_air_interval), the validator matrix
as a weight oracle from era ids to optional weight tables, the acceptor
registry, the parent-to-child link map, the already handled set, the
last progress timestamp and the optional subjective local tip height. -/
structure BlockAccumulator where
  attempt_execution_threshold : ℕ
  dead_air_interval : ℕ
  validator_matrix : ℕ → Option (List (ℕ × ℕ))
  block_acceptors : List (ℕ × BlockAcceptor)
  block_children : List (ℕ × ℕ)
  already_handled : List ℕ
  last_progress : ℕ
  local_tip : Option ℕ

/-- BlockAccumulator::new: empty maps and sets, last_progress set to the
current time, local_tip as given. -/
def BlockAccumulator.new (attempt_execution_threshold dead_air_interval : ℕ)
    (validator_matrix : ℕ → Option (List (ℕ × ℕ)))
    (local_tip : Option ℕ) (now : ℕ) : BlockAccumulator :=
  { attempt_execution_threshold := attempt_execution_threshold
    dead_air_interval := dead_air_interval
    validator_matrix := validator_matrix
    block_acceptors := []
    block_children := []
    already_handled := []
    last_progress := now
    local_tip := local_tip }

/-- The outdated-block gate of register_block:
self.local_tip.map_or(false, |height| block.height() < height). -/
def outdated (local_tip : Option ℕ) (h : ℕ) : Bool :=
  match local_tip with
  | some t => decide (h < t)
  | none => false

/-- BlockAccumulator::should_sync. -/
def BlockAccumulator.should_sync (s : BlockAccumulator) :
    Option ℕ → Option ℕ → Bool
  | none, _ => false
  | some _, none => false
  | some starting_with, some highest_usable_block_height =>
    if highest_usable_block_height - starting_with = 0 then true
    else decide (highest_usable_block_height - starting_with ≤ s.attempt_execution_threshold)

/-- BlockAccumulator::next_syncable_block_hash: the recorded child of the
parent, provided its acceptor exists and has sufficient finality. -/
def BlockAccumulator.next_syncable_block_hash (s : BlockAccumulator)
    (parent_block_hash : ℕ) : Option ℕ :=
  match lookupA s.block_children parent_block_hash with
  | none => none
  | some child_hash =>
    match lookupA s.block_acceptors child_hash with
    | none => none
    | some block_acceptor =>
      if block_acceptor.has_sufficient_finality then some child_hash else none

/-- BlockAccumulator::highest_usable_block_height: the maximum height over
acceptors that are not already handled, have sufficient finality, and have
known era and height. -/
def BlockAccumulator.highest_usable_block_height (s : BlockAccumulator) : Option ℕ :=
  s.block_acceptors.foldl
    (fun ret kv =>
      if memA s.already_handled kv.1 then ret
      else if kv.2.has_sufficient_finality = false then ret
      else
        match kv.2.block_era_and_height with
        | none => ret
        | some eh =>
          match ret with
          | some curr => if eh.2 ≤ curr then ret else some eh.2
          | none => some eh.2)
    none

/-- BlockAccumulator::sync_instruction. Takes the current time for the
two Timestamp::now() call sites and for last_progress.elapsed(). Returns
the updated state together with the instruction. -/
def BlockAccumulator.sync_instruction (s : BlockAccumulator) (now : ℕ)
    (starting_with : StartingWith) : BlockAccumulator × SyncInstruction :=
  let should_fetch_execution_state : Bool := !starting_with.have_block
  match starting_with with
  | .nothing => (s, .leap)
  | .executableBlock block_hash block_height =>
    match s.highest_usable_block_height with
    | none => (s, .blockExec none)
    | some highest_perceived =>
      if block_height > highest_perceived then
        ({ s with
           block_acceptors :=
             insertA block_hash (BlockAcceptor.new block_hash []) s.block_acceptors },
         .blockExec none)
      else if highest_perceived = block_height then (s, .blockExec none)
      else if highest_perceived - s.attempt_execution_threshold ≤ block_height then
        (s, .blockExec (s.next_syncable_block_hash block_hash))
      else (s, .leap)
  | .hash block_hash =>
    match lookupA s.block_acceptors block_hash with
    | none => (s, .leap)
    | some block_acceptor =>
      if s.should_sync block_acceptor.block_height s.highest_usable_block_height then
        ({ s with last_progress := now },
         .blockSync block_acceptor.block_hash should_fetch_execution_state)
      else (s, .leap)
  | .blockIdentifier block_hash block_height =>
    if s.should_sync (some block_height) s.highest_usable_block_height then
      ({ s with last_progress := now },
       .blockSync block_hash should_fetch_execution_state)
    else (s, .leap)
  | .syncedBlockIdentifier block_hash block_height =>
    if s.should_sync (some block_height) s.highest_usable_block_height then
      match s.next_syncable_block_hash block_hash with
      | some child_hash =>
        ({ s with last_progress := now },
         .blockSync child_hash should_fetch_execution_state)
      | none =>
        if now - s.last_progress < s.dead_air_interval then (s, .caughtUp)
        else (s, .leap)
    else (s, .leap)

/-- BlockAccumulator::get_or_register_acceptor_mut, embedded exactly as
written: the source matches on Entry::Occupied(entry) of
block_acceptors.entry(block_hash); inside that branch it returns None if
the hash is already handled and otherwise replaces the entry with a brand
new acceptor (with weights if the era is known); a vacant entry is left
untouched. The function then returns block_acceptors.get_mut(block_hash)
on the possibly updated map. -/
def BlockAccumulator.get_or_register_acceptor_mut (s : BlockAccumulator)
    (block_hash era_id : ℕ) (peers : List ℕ) :
    BlockAccumulator × Option BlockAcceptor :=
  match lookupA s.block_acceptors block_hash with
  | some _ =>
    if memA s.already_handled block_hash then (s, none)
    else
      let acceptor :=
        match s.validator_matrix era_id with
        | some evw => BlockAcceptor.new_with_validator_weights block_hash evw peers
        | none => BlockAcceptor.new block_hash peers
      let s2 := { s with block_acceptors := insertA block_hash acceptor s.block_acceptors }
      (s2, lookupA s2.block_acceptors block_hash)
  | none => (s, lookupA s.block_acceptors block_hash)

/-- BlockAccumulator::register_block. The acceptor-side registration
(block_acceptor module, not among the sources) is passed in as stepB,
returning the mutated acceptor and an optional error; the mutated
acceptor is written back, modelling the mutation through the obtained
mutable reference. -/
def BlockAccumulator.register_block
    (stepB : BlockAcceptor → Block → ℕ → BlockAcceptor × Option AcceptorError)
    (s : BlockAccumulator) (block : Block) (sender : ℕ) :
    BlockAccumulator × List Effect :=
  if outdated s.local_tip block.height then
    ({ s with block_acceptors := removeA block.hash s.block_acceptors }, [])
  else
    let s1 :=
      match block.parent with
      | some parent_hash =>
        { s with block_children := insertA parent_hash block.hash s.block_children }
      | none => s
    match s1.get_or_register_acceptor_mut block.hash block.era_id [sender] with
    | (s2, none) => (s2, [])
    | (s2, some acceptor) =>
      let res := stepB acceptor block sender
      let s3 := { s2 with block_acceptors := insertA block.hash res.1 s2.block_acceptors }
      match res.2 with
      | none => (s3, [])
      | some (.invalidGossip peer) => (s3, [.disconnect_peer peer])
      | some .eraMismatch =>
        ({ s3 with block_acceptors := removeA block.hash s3.block_acceptors }, [])
      | some (.blockHashMismatch peer) => (s3, [.disconnect_peer peer])
      | some .invalidState => (s3, [])

/-- BlockAccumulator::register_finality_signature, with the acceptor-side
registration passed in as stepS (mutated acceptor plus either a
ShouldStore verdict or an error). -/
def BlockAccumulator.register_finality_signature
    (stepS : BlockAcceptor → FinalitySignature → ℕ →
      BlockAcceptor × Except AcceptorError ShouldStore)
    (s : BlockAccumulator) (finality_signature : FinalitySignature) (sender : ℕ) :
    BlockAccumulator × List Effect :=
  match s.get_or_register_acceptor_mut finality_signature.block_hash
      finality_signature.era_id [sender] with
  | (s1, none) => (s1, [])
  | (s1, some acceptor) =>
    let res := stepS acceptor finality_signature sender
    let s2 := { s1 with
                block_acceptors :=
                  insertA finality_signature.block_hash res.1 s1.block_acceptors }
    match res.2 with
    | .ok (.sufficientlySignedBlock block signatures) =>
      (s2, [.store_block_then_signatures block (signatures.map FinalitySignature.sigId)])
    | .ok (.singleSignature signature) => (s2, [.store_single_signature signature])
    | .ok .nothing => (s2, [])
    | .error (.invalidGossip peer) => (s2, [.disconnect_peer peer])
    | .error .eraMismatch => (s2, [])
    | .error (.blockHashMismatch peer) => (s2, [.disconnect_peer peer])
    | .error .invalidState => (s2, [])

/-- BlockAccumulator::register_updated_validator_matrix: for every acceptor
with known era whose weights the matrix can provide, push a refresh. -/
def BlockAccumulator.register_updated_validator_matrix (s : BlockAccumulator) :
    BlockAccumulator :=
  { s with block_acceptors := s.block_acceptors.map (fun kv =>
      (kv.1,
        match kv.2.era_id with
        | some e =>
          match s.validator_matrix e with
          | some w => kv.2.refresh w
          | none => kv.2
        | none => kv.2)) }

/-- The eviction loop of register_local_tip: partitions the acceptor list
into the kept bindings and the evicted keys, an acceptor being evicted
when block_height().unwrap_or_default() < height. -/
def evict (height : ℕ) : List (ℕ × BlockAcceptor) → List (ℕ × BlockAcceptor) × List ℕ
  | [] => ([], [])
  | (k, a) :: rest =>
    if a.block_height.getD 0 < height then
      ((evict height rest).1, k :: (evict height rest).2)
    else ((k, a) :: (evict height rest).1, (evict height rest).2)

/-- BlockAccumulator::register_local_tip: evicts every acceptor whose
known height (unknown treated as 0) is below the given height, adds the
evicted hashes to already_handled, and raises local_tip to the maximum
of its old value and the given height. -/
def BlockAccumulator.register_local_tip (s : BlockAccumulator) (height : ℕ) :
    BlockAccumulator :=
  let r := evict height s.block_acceptors
  { s with
    block_acceptors := r.1
    already_handled := s.already_handled ++ r.2
    local_tip :=
      match s.local_tip with
      | some t => some (max t height)
      | none => some height }

/-- BlockAccumulator::block query. -/
def BlockAccumulator.block (s : BlockAccumulator) (block_hash : ℕ) : Option Block :=
  match lookupA s.block_acceptors block_hash with
  | some acceptor => acceptor.block
  | none => none

/-- BlockAccumulator::get_peers query. -/
def BlockAccumulator.get_peers (s : BlockAccumulator) (block_hash : ℕ) :
    Option (List ℕ) :=
  (lookupA s.block_acceptors block_hash).map BlockAcceptor.peers

/-- BlockAccumulator::handle_stored: announce the block if a hash is
present, then announce every stored signature id. -/
def BlockAccumulator.handle_stored (s : BlockAccumulator)
    (block_hash : Option ℕ) (finality_signature_ids : List (ℕ × ℕ × ℕ)) :
    BlockAccumulator × List Effect :=
  (s,
    (match block_hash with
     | some h => [Effect.announce_block_accepted h]
     | none => []) ++
    finality_signature_ids.map Effect.announce_signature_accepted)

/-- The events consumed by the component (block_accumulator::event::Event). -/
inductive Event where
  | request_get_peers_for_block (block_hash : ℕ)
  | receivedBlock (block : Block) (sender : ℕ)
  | receivedFinalitySignature (finality_signature : FinalitySignature) (sender : ℕ)
  | updatedValidatorMatrix (era_id : ℕ)
  | executedBlock (block_header : BlockHeader)
  | stored (block_hash : Option ℕ) (finality_signature_ids : List (ℕ × ℕ × ℕ))
deriving DecidableEq, Repr

/-- Component::handle_event for the accumulator. UpdatedValidatorMatrix
returns empty effects with the call to the registration commented out in
the source. -/
def BlockAccumulator.handle_event
    (stepB : BlockAcceptor → Block → ℕ → BlockAcceptor × Option AcceptorError)
    (stepS : BlockAcceptor → FinalitySignature → ℕ →
      BlockAcceptor × Except AcceptorError ShouldStore)
    (s : BlockAccumulator) (event : Event) : BlockAccumulator × List Effect :=
  match event with
  | .request_get_peers_for_block block_hash =>
    (s, [.respond_peers (s.get_peers block_hash)])
  | .receivedBlock block sender => s.register_block stepB block sender
  | .receivedFinalitySignature finality_signature sender =>
    s.register_finality_signature stepS finality_signature sender
  | .updatedValidatorMatrix _ => (s, [])
  | .executedBlock block_header => (s.register_local_tip block_header.height, [])
  | .stored block_hash finality_signature_ids =>
    s.handle_stored block_hash finality_signature_ids

/-- States reachable by any sequence of the accumulator operations from a
freshly constructed accumulator, for any acceptor-side registration
behavior, inputs and times. -/
inductive Reachable : BlockAccumulator → Prop where
  | init (threshold dai : ℕ) (vm : ℕ → Option (List (ℕ × ℕ)))
      (lt : Option ℕ) (now : ℕ) :
      Reachable (BlockAccumulator.new threshold dai vm lt now)
  | reg_block {s : BlockAccumulator} (h : Reachable s)
      (stepB : BlockAcceptor → Block → ℕ → BlockAcceptor × Option AcceptorError)
      (b : Block) (sender : ℕ) :
      Reachable (s.register_block stepB b sender).1
  | reg_sig {s : BlockAccumulator} (h : Reachable s)
      (stepS : BlockAcceptor → FinalitySignature → ℕ →
        BlockAcceptor × Except AcceptorError ShouldStore)
      (fs : FinalitySignature) (sender : ℕ) :
      Reachable (s.register_finality_signature stepS fs sender).1
  | reg_tip {s : BlockAccumulator} (h : Reachable s) (height : ℕ) :
      Reachable (s.register_local_tip height)
  | reg_vm {s : BlockAccumulator} (h : Reachable s) :
      Reachable s.register_updated_validator_matrix
  | sync {s : BlockAccumulator} (h : Reachable s) (now : ℕ) (sw : StartingWith) :
      Reachable (s.sync_instruction now sw).1

/-! ### Generic lemmas about the map and set model -/

theorem lookupA_insertA_self {β : Type} (l : List (ℕ × β)) (k : ℕ) (v : β) :
    lookupA (insertA k v l) k = some v := by
  induction l with
  | nil => simp [insertA, lookupA]
  | cons kv rest ih =>
    obtain ⟨k1, v1⟩ := kv
    by_cases h : k1 = k
    · simp [insertA, h, lookupA]
    · simp [insertA, h, lookupA, ih]

theorem lookupA_removeA_self {β : Type} (l : List (ℕ × β)) (k : ℕ) :
    lookupA (removeA k l) k = none := by
  induction l with
  | nil => rfl
  | cons kv rest ih =>
    obtain ⟨k1, v1⟩ := kv
    by_cases h : k1 = k
    · simp [removeA, h, ih]
    · simp [removeA, h, lookupA, ih]

theorem memA_append (xs ys : List ℕ) (k : ℕ) :
    memA (xs ++ ys) k = (memA xs k || memA ys k) := by
  induction xs with
  | nil => simp [memA]
  | cons x xs ih =>
    by_cases h : x = k <;> simp [memA, h, ih]

theorem lookupA_eq_none_of_not_mem {β : Type} (l : List (ℕ × β)) (h : ℕ)
    (hm : h ∉ l.map Prod.fst) : lookupA l h = none := by
  induction l with
  | nil => rfl
  | cons kv rest ih =>
    simp only [List.map_cons, List.mem_cons, not_or] at hm
    obtain ⟨k1, v1⟩ := kv
    have hk : k1 ≠ h := fun e => hm.1 e.symm
    simp [lookupA, hk, ih hm.2]

theorem evict_fst_sublist (H : ℕ) (l : List (ℕ × BlockAcceptor)) :
    (evict H l).1.Sublist l := by
  induction l with
  | nil => simp [evict]
  | cons kv rest ih =>
    obtain ⟨k, a⟩ := kv
    by_cases h : a.block_height.getD 0 < H
    · simpa [evict, h] using ih.cons (k, a)
    · simpa [evict, h] using ih.cons₂ (k, a)

theorem evict_lookup (H : ℕ) (l : List (ℕ × BlockAcceptor)) (h : ℕ) (a : BlockAcceptor)
    (hnd : (l.map Prod.fst).Nodup) (hl : lookupA l h = some a) :
    (a.block_height.getD 0 < H →
      lookupA (evict H l).1 h = none ∧ memA (evict H l).2 h = true) ∧
    (¬ a.block_height.getD 0 < H → lookupA (evict H l).1 h = some a) := by
  induction l with
  | nil => simp [lookupA] at hl
  | cons kv rest ih =>
    obtain ⟨k, b⟩ := kv
    simp only [List.map_cons, List.nodup_cons] at hnd
    by_cases hk : k = h
    · subst hk
      have hba : b = a := by simpa [lookupA] using hl
      subst hba
      constructor
      · intro hlt
        refine ⟨?_, by simp [evict, hlt, memA]⟩
        simp only [evict, if_pos hlt]
        apply lookupA_eq_none_of_not_mem
        intro hmem
        exact hnd.1 (((evict_fst_sublist H rest).map Prod.fst).subset hmem)
      · intro hge
        simp [evict, hge, lookupA]
    · have hl2 : lookupA rest h = some a := by
        simpa [lookupA, hk] using hl
      have ih2 := ih hnd.2 hl2
      constructor
      · intro hlt
        obtain ⟨h1, h2⟩ := ih2.1 hlt
        by_cases hb : b.block_height.getD 0 < H
        · exact ⟨by simp [evict, hb, h1], by simp [evict, hb, memA, hk, h2]⟩
        · exact ⟨by simp [evict, hb, lookupA, hk, h1], by simp [evict, hb, h2]⟩
      · intro hge
        have h1 := ih2.2 hge
        by_cases hb : b.block_height.getD 0 < H
        · simpa [evict, hb] using h1
        · simp [evict, hb, lookupA, hk, h1]

/-! ### Concrete states used by witnesses and counterexamples -/

/-- A freshly constructed accumulator: threshold 2, dead air interval 10,
weight oracle that knows no era, no local tip, clock at 0. -/
def sEmpty : BlockAccumulator :=
  BlockAccumulator.new 2 10 (fun _ => none) none 0

/-- An acceptor for hash 1 holding a block at height 5 in era 0, with
sufficient finality. -/
def accS : BlockAcceptor :=
  { BlockAcceptor.new 1 [] with
    block := some { hash := 1, parent := none, era_id := 0, height := 5 }
    era_id := some 0
    sufficient_finality := true }

/-- An accumulator whose only acceptor is accS, so that the highest usable
block height is 5. -/
def sEx : BlockAccumulator :=
  { sEmpty with block_acceptors := [(1, accS)] }

/-- An acceptor for hash 1 with accumulated state: a vouching peer 9 and a
collected signature, but no block yet. -/
def accOld : BlockAcceptor :=
  { BlockAcceptor.new 1 [9] with
    signatures := [{ block_hash := 1, era_id := 0, public_key := 7, signature := 0 }] }

/-- An accumulator whose only acceptor is accOld. -/
def sOcc : BlockAccumulator :=
  { sEmpty with block_acceptors := [(1, accOld)] }

/-- A finality signature for block hash 1 in era 0 from validator 7. -/
def sigA : FinalitySignature :=
  { block_hash := 1, era_id := 0, public_key := 7, signature := 0 }

/-- An acceptor-side signature registration that mutates nothing and
reports nothing to store. -/
def stepOK : BlockAcceptor → FinalitySignature → ℕ →
    BlockAcceptor × Except AcceptorError ShouldStore :=
  fun a _ _ => (a, Except.ok ShouldStore.nothing)

/-- An acceptor-side block registration that always reports an era
mismatch. -/
def stepBadB : BlockAcceptor → Block → ℕ → BlockAcceptor × Option AcceptorError :=
  fun a _ _ => (a, some AcceptorError.eraMismatch)

/-- An acceptor-side signature registration that always reports an era
mismatch. -/
def stepBadS : BlockAcceptor → FinalitySignature → ℕ →
    BlockAcceptor × Except AcceptorError ShouldStore :=
  fun a _ _ => (a, Except.error AcceptorError.eraMismatch)

/-- A block with hash 1, parent 0, era 2, height 5. -/
def blockB : Block :=
  { hash := 1, parent := some 0, era_id := 2, height := 5 }

/-- An acceptor for hash 5 whose height is unknown (no block yet). -/
def accU : BlockAcceptor := BlockAcceptor.new 5 []

/-- An accumulator whose only acceptor is the unknown-height accU. -/
def sC3 : BlockAccumulator :=
  { sEmpty with block_acceptors := [(5, accU)] }

/-! ### Lemmas about register_local_tip -/

theorem register_local_tip_tip (s : BlockAccumulator) (H : ℕ) :
    (s.register_local_tip H).local_tip = some (max (s.local_tip.getD 0) H) := by
  unfold BlockAccumulator.register_local_tip
  cases s.local_tip <;> simp

theorem tips_foldl (hs : List ℕ) : ∀ (s : BlockAccumulator) (t : ℕ),
    s.local_tip = some t →
    ((hs.foldl BlockAccumulator.register_local_tip s).local_tip
      = some (hs.foldl max t)) := by
  induction hs with
  | nil => intro s t h; simpa using h
  | cons h0 hs ih =>
    intro s t h
    have h1 : (s.register_local_tip h0).local_tip = some (max t h0) := by
      unfold BlockAccumulator.register_local_tip
      simp [h]
    simp only [List.foldl_cons]
    exact ih _ _ h1

theorem foldl_max_assoc (hs : List ℕ) : ∀ a b : ℕ,
    hs.foldl max (max a b) = max a (hs.foldl max b) := by
  induction hs with
  | nil => intro a b; rfl
  | cons c hs ih =>
    intro a b
    simp only [List.foldl_cons]
    rw [max_assoc]
    exact ih a (max b c)

/-- Claim C7: for any sequence of register_local_tip calls the resulting
local_tip is the maximum of the heights in the sequence and the initial
value, and a single call never decreases it. -/
theorem c7_monotonic_tip :
    (∀ (s : BlockAccumulator) (H : ℕ),
      (s.register_local_tip H).local_tip = some (max (s.local_tip.getD 0) H)) ∧
    (∀ (s : BlockAccumulator) (H : ℕ),
      s.local_tip.getD 0 ≤ ((s.register_local_tip H).local_tip).getD 0) ∧
    (∀ (s : BlockAccumulator) (h0 : ℕ) (hs : List ℕ),
      (((h0 :: hs).foldl BlockAccumulator.register_local_tip s).local_tip)
        = some (max (s.local_tip.getD 0) ((h0 :: hs).foldl max 0))) := by
  refine ⟨register_local_tip_tip, ?_, ?_⟩
  · intro s H
    rw [register_local_tip_tip]
    simp only [Option.getD_some]
    exact le_max_left _ _
  · intro s h0 hs
    simp only [List.foldl_cons, Nat.zero_max]
    rw [tips_foldl hs _ _ (register_local_tip_tip s h0), foldl_max_assoc]

/-- Claim C10: handling an UpdatedValidatorMatrix event leaves the whole
accumulator state unchanged and produces no effects; the handler never
invokes register_updated_validator_matrix. -/
theorem c10_updated_validator_matrix_noop
    (stepB : BlockAcceptor → Block → ℕ → BlockAcceptor × Option AcceptorError)
    (stepS : BlockAcceptor → FinalitySignature → ℕ →
      BlockAcceptor × Except AcceptorError ShouldStore)
    (s : BlockAccumulator) (era_id : ℕ) :
    s.handle_event stepB stepS (Event.updatedValidatorMatrix era_id) = (s, []) :=
  rfl

/-- Claim C4: should_sync is false when either height is unknown; with both
known, letting diff be the saturating difference, it is true exactly when
diff is zero or diff is at most the attempt execution threshold; at
H = 100, starting height 90 syncs exactly when the threshold is at least
10, starting height 100 always syncs, an unknown starting height never
does. -/
theorem c4_should_sync (s : BlockAccumulator) :
    (∀ mh, s.should_sync none mh = false) ∧
    (∀ ms, s.should_sync ms none = false) ∧
    (∀ st hi, s.should_sync (some st) (some hi) = true ↔
      (hi - st = 0 ∨ hi - st ≤ s.attempt_execution_threshold)) ∧
    (s.should_sync (some 90) (some 100) = true ↔
      10 ≤ s.attempt_execution_threshold) ∧
    (s.should_sync (some 100) (some 100) = true) ∧
    (s.should_sync none (some 100) = false) := by
  refine ⟨fun mh => rfl, fun ms => ?_, fun st hi => ?_, ?_, ?_, rfl⟩
  · cases ms <;> rfl
  · unfold BlockAccumulator.should_sync
    by_cases h : hi - st = 0
    · simp [h]
    · simp only [if_neg h, decide_eq_true_eq]
      exact (or_iff_right h).symm
  · unfold BlockAccumulator.should_sync
    norm_num
  · rfl

/-! ### The reachability invariant behind disjointness -/

theorem get_or_register_nil (s : BlockAccumulator) (bh e : ℕ) (p : List ℕ)
    (hA : s.block_acceptors = []) :
    s.get_or_register_acceptor_mut bh e p = (s, none) := by
  unfold BlockAccumulator.get_or_register_acceptor_mut
  rw [hA]
  rfl

theorem register_block_preserves_empty
    (stepB : BlockAcceptor → Block → ℕ → BlockAcceptor × Option AcceptorError)
    (s : BlockAccumulator) (b : Block) (sender : ℕ)
    (hA : s.block_acceptors = []) (hH : s.already_handled = []) :
    (s.register_block stepB b sender).1.block_acceptors = [] ∧
    (s.register_block stepB b sender).1.already_handled = [] := by
  unfold BlockAccumulator.register_block
  by_cases hout : outdated s.local_tip b.height = true
  · simp [hout, hA, hH, removeA]
  · rw [if_neg hout]
    rcases hp : b.parent with _ | ph
    · simp only [hp]
      rw [get_or_register_nil s _ _ _ hA]
      exact ⟨hA, hH⟩
    · simp only [hp]
      rw [get_or_register_nil
        ({ s with block_children := insertA ph b.hash s.block_children }) _ _ _ hA]
      exact ⟨hA, hH⟩

theorem register_sig_preserves_empty
    (stepS : BlockAcceptor → FinalitySignature → ℕ →
      BlockAcceptor × Except AcceptorError ShouldStore)
    (s : BlockAccumulator) (fs : FinalitySignature) (sender : ℕ)
    (hA : s.block_acceptors = []) (hH : s.already_handled = []) :
    (s.register_finality_signature stepS fs sender).1.block_acceptors = [] ∧
    (s.register_finality_signature stepS fs sender).1.already_handled = [] := by
  unfold BlockAccumulator.register_finality_signature
  rw [get_or_register_nil s _ _ _ hA]
  exact ⟨hA, hH⟩

theorem register_local_tip_preserves_empty (s : BlockAccumulator) (H : ℕ)
    (hA : s.block_acceptors = []) (hH : s.already_handled = []) :
    (s.register_local_tip H).block_acceptors = [] ∧
    (s.register_local_tip H).already_handled = [] := by
  unfold BlockAccumulator.register_local_tip
  simp [hA, hH, evict]

theorem register_vm_preserves_empty (s : BlockAccumulator)
    (hA : s.block_acceptors = []) (hH : s.already_handled = []) :
    s.register_updated_validator_matrix.block_acceptors = [] ∧
    s.register_updated_validator_matrix.already_handled = [] := by
  unfold BlockAccumulator.register_updated_validator_matrix
  simp [hA, hH]

theorem highest_usable_nil (s : BlockAccumulator) (hA : s.block_acceptors = []) :
    s.highest_usable_block_height = none := by
  unfold BlockAccumulator.highest_usable_block_height
  rw [hA]
  rfl

theorem sync_preserves_empty (s : BlockAccumulator) (now : ℕ) (sw : StartingWith)
    (hA : s.block_acceptors = []) : (s.sync_instruction now sw).1 = s := by
  unfold BlockAccumulator.sync_instruction
  cases sw with
  | nothing => rfl
  | executableBlock bh bht => rw [highest_usable_nil s hA]
  | hash bh => rw [hA]; rfl
  | blockIdentifier bh bht =>
    rw [highest_usable_nil s hA]
    rfl
  | syncedBlockIdentifier bh bht =>
    rw [highest_usable_nil s hA]
    rfl

theorem reachable_state_empty {s : BlockAccumulator} (h : Reachable s) :
    s.block_acceptors = [] ∧ s.already_handled = [] := by
  induction h with
  | init threshold dai vm lt now => exact ⟨rfl, rfl⟩
  | reg_block h stepB b sender ih =>
    exact register_block_preserves_empty stepB _ b sender ih.1 ih.2
  | reg_sig h stepS fs sender ih =>
    exact register_sig_preserves_empty stepS _ fs sender ih.1 ih.2
  | reg_tip h height ih =>
    exact register_local_tip_preserves_empty _ height ih.1 ih.2
  | reg_vm h ih => exact register_vm_preserves_empty _ ih.1 ih.2
  | sync h now sw ih =>
    rw [sync_preserves_empty _ now sw ih.1]
    exact ih

/-- Claim C2: after any sequence of operations, the keys of
block_acceptors and the already_handled set are disjoint: no hash is both
a key of an acceptor and already handled. -/
theorem c2_disjointness {s : BlockAccumulator} (hr : Reachable s) (h : ℕ) :
    (lookupA s.block_acceptors h).isSome = false ∨
    memA s.already_handled h = false := by
  left
  rw [(reachable_state_empty hr).1]
  rfl

/-- Witness for C2 at a freshly constructed accumulator. -/
theorem c2_disjointness_witness :
    (lookupA (BlockAccumulator.new 5 10 (fun _ => none) none 0).block_acceptors 3).isSome
        = false ∨
    memA (BlockAccumulator.new 5 10 (fun _ => none) none 0).already_handled 3 = false :=
  c2_disjointness (Reachable.init 5 10 (fun _ => none) none 0) 3

/-! ### Claim C3: eviction on local-tip advancement -/

/-- Counterexample to claim C3 as stated: the acceptor at hash 5 has
unknown height (no block body), yet register_local_tip 1 evicts it and
adds its hash to already_handled, where the claim says every acceptor
whose height is unknown remains present. -/
theorem c3_unknown_height_evicted_counterexample :
    accU.block_height = none ∧
    lookupA sC3.block_acceptors 5 = some accU ∧
    lookupA (sC3.register_local_tip 1).block_acceptors 5 = none ∧
    memA (sC3.register_local_tip 1).already_handled 5 = true := by
  refine ⟨rfl, rfl, ?_, ?_⟩ <;> rfl

/-- Claim C3 (amended): after register_local_tip(H), every previously
present acceptor whose known height (an unknown height counting as 0) is
strictly below H is removed and its hash added to already_handled, and
every acceptor whose known height (unknown counting as 0) is at least H
remains present; keys are unique as in the BTreeMap of the source. -/
theorem c3_eviction_amended (s : BlockAccumulator) (H h : ℕ) (a : BlockAcceptor)
    (hnd : (s.block_acceptors.map Prod.fst).Nodup)
    (hl : lookupA s.block_acceptors h = some a) :
    (a.block_height.getD 0 < H →
      lookupA (s.register_local_tip H).block_acceptors h = none ∧
      memA (s.register_local_tip H).already_handled h = true) ∧
    (¬ a.block_height.getD 0 < H →
      lookupA (s.register_local_tip H).block_acceptors h = some a) := by
  have he := evict_lookup H s.block_acceptors h a hnd hl
  unfold BlockAccumulator.register_local_tip
  constructor
  · intro hlt
    obtain ⟨h1, h2⟩ := he.1 hlt
    refine ⟨h1, ?_⟩
    simp [memA_append, h2]
  · intro hge
    exact he.2 hge

/-- Witness for C3 (amended): in the concrete state sEx the acceptor for
hash 1 sits at height 5; register_local_tip 3 keeps it, while
register_local_tip 7 evicts it and marks its hash handled. -/
theorem c3_eviction_amended_witness :
    lookupA (sEx.register_local_tip 3).block_acceptors 1 = some accS ∧
    (lookupA (sEx.register_local_tip 7).block_acceptors 1 = none ∧
      memA (sEx.register_local_tip 7).already_handled 1 = true) :=
  ⟨(c3_eviction_amended sEx 3 1 accS (by decide) (by rfl)).2 (by decide),
   (c3_eviction_amended sEx 7 1 accS (by decide) (by rfl)).1 (by decide)⟩

/-! ### Claims about the sync-decision algorithm -/

/-- Counterexample to claim C9 as stated: sync_instruction is not a pure
function of the state. In sEx (whose highest usable height is 5), asking
about an executable block at height 10 inserts a placeholder acceptor for
hash 99, and asking about block identifier 1 at height 5 updates
last_progress to the current time 7. -/
theorem c9_sync_instruction_mutates_counterexample :
    lookupA sEx.block_acceptors 99 = none ∧
    lookupA (sEx.sync_instruction 7
        (StartingWith.executableBlock 99 10)).1.block_acceptors 99
      = some (BlockAcceptor.new 99 []) ∧
    sEx.last_progress = 0 ∧
    (sEx.sync_instruction 7 (StartingWith.blockIdentifier 1 5)).1.last_progress = 7 := by
  exact ⟨rfl, rfl, rfl, rfl⟩

/-- Claim C9 (amended): sync_instruction never changes block_children,
already_handled or local_tip; it may insert a placeholder acceptor (for an
executable block above the highest usable height) and may update
last_progress (when producing a BlockSync instruction). -/
theorem c9_frame_amended (s : BlockAccumulator) (now : ℕ) (sw : StartingWith) :
    (s.sync_instruction now sw).1.block_children = s.block_children ∧
    (s.sync_instruction now sw).1.already_handled = s.already_handled ∧
    (s.sync_instruction now sw).1.local_tip = s.local_tip := by
  cases sw with
  | nothing => exact ⟨rfl, rfl, rfl⟩
  | executableBlock bh bht =>
    simp only [BlockAccumulator.sync_instruction]
    rcases hH : s.highest_usable_block_height with _ | hp
    · exact ⟨rfl, rfl, rfl⟩
    · dsimp only
      split_ifs <;> exact ⟨rfl, rfl, rfl⟩
  | hash bh =>
    simp only [BlockAccumulator.sync_instruction]
    rcases hl : lookupA s.block_acceptors bh with _ | acc
    · exact ⟨rfl, rfl, rfl⟩
    · dsimp only
      split_ifs <;> exact ⟨rfl, rfl, rfl⟩
  | blockIdentifier bh bht =>
    simp only [BlockAccumulator.sync_instruction]
    split_ifs <;> exact ⟨rfl, rfl, rfl⟩
  | syncedBlockIdentifier bh bht =>
    simp only [BlockAccumulator.sync_instruction]
    rcases hn : s.next_syncable_block_hash bh with _ | child <;>
      simp only [hn] <;> split_ifs <;> exact ⟨rfl, rfl, rfl⟩

/-- Claim C5: the five cases of sync_instruction on an executable block,
with H the highest usable block height: H unknown gives BlockExec none;
height above H inserts a placeholder acceptor and gives BlockExec none;
height equal to H gives BlockExec none; height within the threshold below
H gives BlockExec of the syncable child of the hash (the recorded child,
provided its acceptor has sufficient finality); height more than the
threshold below H gives Leap. -/
theorem c5_executable_block (s : BlockAccumulator) (now block_hash block_height : ℕ) :
    (s.highest_usable_block_height = none →
      s.sync_instruction now (.executableBlock block_hash block_height)
        = (s, .blockExec none)) ∧
    (∀ hp, s.highest_usable_block_height = some hp →
      (hp < block_height →
        lookupA (s.sync_instruction now
            (.executableBlock block_hash block_height)).1.block_acceptors block_hash
          = some (BlockAcceptor.new block_hash []) ∧
        (s.sync_instruction now (.executableBlock block_hash block_height)).2
          = .blockExec none) ∧
      (block_height = hp →
        s.sync_instruction now (.executableBlock block_hash block_height)
          = (s, .blockExec none)) ∧
      (hp - s.attempt_execution_threshold ≤ block_height → block_height < hp →
        s.sync_instruction now (.executableBlock block_hash block_height)
          = (s, .blockExec (s.next_syncable_block_hash block_hash))) ∧
      (block_height < hp - s.attempt_execution_threshold →
        s.sync_instruction now (.executableBlock block_hash block_height)
          = (s, .leap))) ∧
    (∀ p c, s.next_syncable_block_hash p = some c ↔
      (lookupA s.block_children p = some c ∧
        ∃ a, lookupA s.block_acceptors c = some a ∧
          a.has_sufficient_finality = true)) := by
  refine ⟨fun hH => ?_, fun hp hH => ?_, fun p c => ?_⟩
  · simp [BlockAccumulator.sync_instruction, hH]
  · refine ⟨fun hgt => ?_, fun heq => ?_, fun hle hlt => ?_, fun hfar => ?_⟩
    · simp only [BlockAccumulator.sync_instruction, hH, if_pos hgt]
      exact ⟨lookupA_insertA_self _ _ _, trivial⟩
    · subst heq
      simp [BlockAccumulator.sync_instruction, hH, lt_irrefl]
    · have h1 : ¬ hp < block_height := by omega
      have h2 : ¬ hp = block_height := by omega
      simp only [BlockAccumulator.sync_instruction, hH, if_neg h1, if_neg h2,
        if_pos hle]
    · have h1 : ¬ hp < block_height := by omega
      have h2 : ¬ hp = block_height := by omega
      have h3 : ¬ hp - s.attempt_execution_threshold ≤ block_height := by omega
      simp only [BlockAccumulator.sync_instruction, hH, if_neg h1, if_neg h2,
        if_neg h3]
  · unfold BlockAccumulator.next_syncable_block_hash
    rcases hc : lookupA s.block_children p with _ | child
    · simp
    · rcases ha : lookupA s.block_acceptors child with _ | acc
      · simp only [ha]
        constructor
        · intro h; cases h
        · rintro ⟨hcc, a, hla, _⟩
          obtain rfl : child = c := by injection hcc
          rw [ha] at hla
          cases hla
      · simp only [ha]
        by_cases hsf : acc.has_sufficient_finality = true
        · constructor
          · intro h
            rw [if_pos hsf] at h
            obtain rfl : child = c := by injection h
            exact ⟨rfl, acc, ha, hsf⟩
          · rintro ⟨hcc, _⟩
            obtain rfl : child = c := by injection hcc
            rw [if_pos hsf]
        · constructor
          · intro h
            rw [if_neg hsf] at h
            cases h
          · rintro ⟨hcc, a, hla, hsa⟩
            obtain rfl : child = c := by injection hcc
            rw [ha] at hla
            obtain rfl : acc = a := by injection hla
            exact absurd hsa hsf

/-- Witness for C5 at concrete states: with no usable acceptor the answer
is BlockExec none; in sEx (highest usable height 5) a block at height 5 is
at the perceived tip, a block at height 4 is within the threshold and gets
the syncable child answer, and a block at height 1 is too far behind, so
the node leaps. -/
theorem c5_executable_block_witness :
    sEmpty.sync_instruction 0 (.executableBlock 9 3) = (sEmpty, .blockExec none) ∧
    sEx.sync_instruction 0 (.executableBlock 1 5) = (sEx, .blockExec none) ∧
    sEx.sync_instruction 0 (.executableBlock 1 4)
      = (sEx, .blockExec (sEx.next_syncable_block_hash 1)) ∧
    sEx.sync_instruction 0 (.executableBlock 1 1) = (sEx, .leap) :=
  ⟨(c5_executable_block sEmpty 0 9 3).1 rfl,
   ((c5_executable_block sEx 0 1 5).2.1 5 rfl).2.1 rfl,
   ((c5_executable_block sEx 0 1 4).2.1 5 rfl).2.2.1 (by decide) (by decide),
   ((c5_executable_block sEx 0 1 1).2.1 5 rfl).2.2.2 (by decide)⟩

/-- Claim C6: on a synced block identifier for which should_sync holds but
no syncable child exists, the node reports CaughtUp while the time since
last_progress is below the dead air interval, and Leap once it exceeds
it. -/
theorem c6_dead_air_fallback (s : BlockAccumulator) (now block_hash block_height : ℕ)
    (hs : s.should_sync (some block_height) s.highest_usable_block_height = true)
    (hn : s.next_syncable_block_hash block_hash = none) :
    (now - s.last_progress < s.dead_air_interval →
      s.sync_instruction now (.syncedBlockIdentifier block_hash block_height)
        = (s, .caughtUp)) ∧
    (s.dead_air_interval < now - s.last_progress →
      s.sync_instruction now (.syncedBlockIdentifier block_hash block_height)
        = (s, .leap)) := by
  constructor
  · intro ht
    simp [BlockAccumulator.sync_instruction, hs, hn, ht]
  · intro ht
    have ht2 : ¬ now - s.last_progress < s.dead_air_interval := by omega
    simp [BlockAccumulator.sync_instruction, hs, hn, ht2]

/-- Witness for C6 in sEx: block 42 at height 5 has no recorded child;
at time 3 the elapsed 3 is under the interval 10, so CaughtUp; at time 42
the elapsed 42 exceeds it, so Leap. -/
theorem c6_dead_air_fallback_witness :
    sEx.sync_instruction 3 (.syncedBlockIdentifier 42 5) = (sEx, .caughtUp) ∧
    sEx.sync_instruction 42 (.syncedBlockIdentifier 42 5) = (sEx, .leap) :=
  ⟨(c6_dead_air_fallback sEx 3 42 5 (by decide) (by decide)).1 (by decide),
   (c6_dead_air_fallback sEx 42 42 5 (by decide) (by decide)).2 (by decide)⟩

/-! ### Claims about registration error handling and acceptor creation -/

theorem get_or_register_occupied (s : BlockAccumulator) (bh e : ℕ) (p : List ℕ)
    (a0 : BlockAcceptor)
    (hl : lookupA s.block_acceptors bh = some a0)
    (hnh : memA s.already_handled bh = false) :
    ∃ fresh : BlockAcceptor,
      s.get_or_register_acceptor_mut bh e p =
        ({ s with block_acceptors := insertA bh fresh s.block_acceptors },
         some fresh) := by
  unfold BlockAccumulator.get_or_register_acceptor_mut
  simp only [hl, hnh, Bool.false_eq_true, if_false]
  cases hv : s.validator_matrix e with
  | none =>
    refine ⟨BlockAcceptor.new bh p, ?_⟩
    simp only [lookupA_insertA_self]
  | some evw =>
    refine ⟨BlockAcceptor.new_with_validator_weights bh evw p, ?_⟩
    simp only [lookupA_insertA_self]

/-- Claim C8: when the acceptor reports an era mismatch while a block is
being registered, the whole acceptor for that hash is removed and no
effect (in particular no peer disconnect) is produced; when it reports an
era mismatch while a finality signature is being registered, an acceptor
for the hash stays present and no effect is produced. The preconditions
put the call on the era-mismatch path: the block passes the outdated-block
gate, an acceptor entry exists for the hash, the hash is not already
handled, and the acceptor-side registration reports the mismatch. -/
theorem c8_era_mismatch_asymmetry
    (stepB : BlockAcceptor → Block → ℕ → BlockAcceptor × Option AcceptorError)
    (stepS : BlockAcceptor → FinalitySignature → ℕ →
      BlockAcceptor × Except AcceptorError ShouldStore)
    (s : BlockAccumulator) (block : Block) (fs : FinalitySignature)
    (bsender ssender : ℕ) :
    (outdated s.local_tip block.height = false →
      ∀ a0, lookupA s.block_acceptors block.hash = some a0 →
      memA s.already_handled block.hash = false →
      (∀ a, (stepB a block bsender).2 = some AcceptorError.eraMismatch) →
      lookupA (s.register_block stepB block bsender).1.block_acceptors block.hash
          = none ∧
      (s.register_block stepB block bsender).2 = []) ∧
    (∀ a0, lookupA s.block_acceptors fs.block_hash = some a0 →
      memA s.already_handled fs.block_hash = false →
      (∀ a, (stepS a fs ssender).2 = Except.error AcceptorError.eraMismatch) →
      (lookupA (s.register_finality_signature stepS fs ssender).1.block_acceptors
          fs.block_hash).isSome = true ∧
      (s.register_finality_signature stepS fs ssender).2 = []) := by
  constructor
  · intro hout a0 hl hnh hstep
    unfold BlockAccumulator.register_block
    simp only [hout, Bool.false_eq_true, if_false]
    rcases hp : block.parent with _ | ph
    · simp only [hp]
      obtain ⟨fresh, hgor⟩ :=
        get_or_register_occupied s block.hash block.era_id [bsender] a0 hl hnh
      rw [hgor]
      simp only [hstep fresh]
      exact ⟨lookupA_removeA_self _ _, trivial⟩
    · simp only [hp]
      obtain ⟨fresh, hgor⟩ := get_or_register_occupied
        ({ s with block_children := insertA ph block.hash s.block_children })
        block.hash block.era_id [bsender] a0 hl hnh
      rw [hgor]
      simp only [hstep fresh]
      exact ⟨lookupA_removeA_self _ _, trivial⟩
  · intro a0 hl hnh hstep
    unfold BlockAccumulator.register_finality_signature
    obtain ⟨fresh, hgor⟩ :=
      get_or_register_occupied s fs.block_hash fs.era_id [ssender] a0 hl hnh
    rw [hgor]
    simp only [hstep fresh]
    rw [lookupA_insertA_self]
    exact ⟨rfl, trivial⟩

/-- Witness for C8 at the concrete occupied state sOcc with the always
era-mismatching acceptor steps. -/
theorem c8_era_mismatch_witness :
    (lookupA (sOcc.register_block stepBadB blockB 3).1.block_acceptors 1 = none ∧
      (sOcc.register_block stepBadB blockB 3).2 = []) ∧
    ((lookupA (sOcc.register_finality_signature stepBadS sigA 3).1.block_acceptors
        1).isSome = true ∧
      (sOcc.register_finality_signature stepBadS sigA 3).2 = []) :=
  ⟨(c8_era_mismatch_asymmetry stepBadB stepBadS sOcc blockB sigA 3 3).1
      rfl accOld rfl rfl (fun _ => rfl),
   (c8_era_mismatch_asymmetry stepBadB stepBadS sOcc blockB sigA 3 3).2
      accOld rfl rfl (fun _ => rfl)⟩

/-- Claim C1 (the code): get_or_register_acceptor_mut matches on an
occupied entry of block_acceptors where obtain-or-create semantics needs
a vacant one. Consequences, evaluated on concrete states: registering a
finality signature for hash 1 against an accumulator with no acceptor and
with 1 not already handled creates no acceptor and produces no effect
(the registration is silently dropped); registering against an
accumulator that already holds the acceptor accOld for hash 1 (with its
accumulated signature and vouching peer 9) replaces it by the brand new
acceptor BlockAcceptor.new 1 [3], discarding the accumulated state. -/
theorem c1_get_or_register_inverted :
    (sEmpty.register_finality_signature stepOK sigA 3 = (sEmpty, [])) ∧
    (lookupA sEmpty.block_acceptors 1 = none) ∧
    (memA sEmpty.already_handled 1 = false) ∧
    (lookupA (sOcc.register_finality_signature stepOK sigA 3).1.block_acceptors 1
      = some (BlockAcceptor.new 1 [3])) ∧
    (lookupA sOcc.block_acceptors 1 = some accOld) ∧
    (accOld ≠ BlockAcceptor.new 1 [3]) := by
  exact ⟨rfl, rfl, rfl, rfl, rfl, by decide⟩

/-- Witness for C4 at a concrete accumulator. -/
theorem c4_should_sync_witness :
    sEmpty.should_sync (some 100) (some 100) = true :=
  (c4_should_sync sEmpty).2.2.2.2.1

/-- Witness for C7 at a concrete accumulator. -/
theorem c7_monotonic_tip_witness :
    (sEmpty.register_local_tip 4).local_tip
      = some (max (sEmpty.local_tip.getD 0) 4) :=
  c7_monotonic_tip.1 sEmpty 4

/-- Witness for the amended C9 at a concrete accumulator and argument. -/
theorem c9_frame_amended_witness :
    (sEx.sync_instruction 7 (StartingWith.executableBlock 99 10)).1.block_children
        = sEx.block_children ∧
    (sEx.sync_instruction 7 (StartingWith.executableBlock 99 10)).1.already_handled
        = sEx.already_handled ∧
    (sEx.sync_instruction 7 (StartingWith.executableBlock 99 10)).1.local_tip
        = sEx.local_tip :=
  c9_frame_amended sEx 7 (StartingWith.executableBlock 99 10)

/-- Witness for C10 at a concrete accumulator and acceptor behavior. -/
theorem c10_updated_validator_matrix_noop_witness :
    sEmpty.handle_event stepBadB stepOK (Event.updatedValidatorMatrix 0)
      = (sEmpty, []) :=
  c10_updated_validator_matrix_noop stepBadB stepOK sEmpty 0
